import Mathlib

/-!
Verification of the Box-note to XHTML converter (`box_note_to_xhtml.py`).

The development shallowly embeds the two components of the program:

* the parser (`parse_top`, `parse_doc`, `parse_content`, `parse_marks`,
  `parse_image`), which turns a loaded JSON value into an `Ast` tree, and
* the renderer (the per-class `print` methods and the `prints` loop), which
  writes markup text to an output sink.

JSON values as produced by `json.load` are modelled by the inductive `Json`
(objects keep their key/value pairs in order; lookup takes the last binding
for a key, as later bindings overwrite earlier ones in a Python dict).
Python `KeyError` on a missing dict key and `TypeError` on indexing a
non-dict are modelled by `Err`; error propagation is written with the small
bind combinators `ebind`/`obind`/`oebind`/`osbind` below.  The recursive
parser and renderer are defined through a fuel parameter that is structural
in `Nat`, so every definition evaluates by `rfl`; fuel `Json.size` and
`Ast.size` of the input are proved sufficient below, which also settles
termination.
-/

inductive Json where
  | null : Json
  | bool : Bool → Json
  | num : Int → Json
  | str : String → Json
  | arr : List Json → Json
  | obj : List (String × Json) → Json

/- Structural size of a JSON value, the fuel measure for the recursive
parser (the derived `sizeOf` is not executable for a nested inductive). -/
mutual
def Json.size : Json → Nat
  | .null => 1
  | .bool _ => 1
  | .num _ => 1
  | .str _ => 1
  | .arr xs => 1 + Json.sizeList xs
  | .obj kvs => 1 + Json.sizeKvs kvs

def Json.sizeList : List Json → Nat
  | [] => 0
  | j :: js => Json.size j + Json.sizeList js

def Json.sizeKvs : List (String × Json) → Nat
  | [] => 0
  | kv :: rest => Json.size kv.2 + Json.sizeKvs rest
end

inductive Err where
  | missingField : String → Err
  | typeError : Err

/-- Sequencing of fallible steps: a Python statement after an expression
that may raise. -/
def ebind {α β : Type} (x : Except Err α) (f : α → Except Err β) : Except Err β :=
  match x with
  | .error er => .error er
  | .ok a => f a

/-- Sequencing of a fallible step before a fuelled computation. -/
def obind {α β : Type} (x : Except Err α) (f : α → Option (Except Err β)) :
    Option (Except Err β) :=
  match x with
  | .error er => some (.error er)
  | .ok a => f a

/-- Sequencing of two fuelled fallible computations: `none` (out of fuel)
and errors both propagate. -/
def oebind {α β : Type} (x : Option (Except Err α))
    (f : α → Option (Except Err β)) : Option (Except Err β) :=
  match x with
  | none => none
  | some (.error er) => some (.error er)
  | some (.ok a) => f a

/-- Sequencing of two fuelled renderer steps. -/
def osbind (x : Option String) (f : String → Option String) : Option String :=
  match x with
  | none => none
  | some o => f o

/-- Lookup of a key in an object's binding list, last binding wins, as in a
Python dict built from a JSON object with (degenerately) repeated keys. -/
def lookupLast (kvs : List (String × Json)) (key : String) : Option Json :=
  match kvs with
  | [] => none
  | (k, v) :: rest =>
    match lookupLast rest key with
    | some r => some r
    | none => if k = key then some v else none

/-- Python `d[key]`: a `KeyError` (here `Err.missingField`) if the key is
absent, a `TypeError` if `d` is not a dict. -/
def Json.index (j : Json) (key : String) : Except Err Json :=
  match j with
  | .obj kvs =>
    match lookupLast kvs key with
    | some v => Except.ok v
    | none => Except.error (Err.missingField key)
  | _ => Except.error Err.typeError

/-- Python `key in d` for a dict; only reached in the source after `d[...]`
has succeeded, hence `d` is a dict there. -/
def Json.hasKey (j : Json) (key : String) : Bool :=
  match j with
  | .obj kvs => (lookupLast kvs key).isSome
  | _ => false

/-- Python `d.get(key, dflt)`. -/
def Json.dictGet (j : Json) (key : String) (dflt : Json) : Except Err Json :=
  match j with
  | .obj kvs => Except.ok ((lookupLast kvs key).getD dflt)
  | _ => Except.error Err.typeError

/-- Python `d.get(key)`, whose result `None` stands both for an absent key
and for a stored JSON `null`; the caller distinguishes on the option and on
`Json.null`. -/
def Json.dictGetOpt (j : Json) (key : String) : Except Err (Option Json) :=
  match j with
  | .obj kvs => Except.ok (lookupLast kvs key)
  | _ => Except.error Err.typeError

/-- Iteration of a JSON value, as in `for e in ...` over the loaded object.
An array yields its elements in order.  Iterating any other value is
modelled as a type error; CPython would iterate a string by characters and
a dict by keys before failing inside the loop body, a degenerate shape no
document reaching these loops has. -/
def Json.elems : Json → Except Err (List Json)
  | .arr xs => Except.ok xs
  | _ => Except.error Err.typeError

/-- The AST classes of the source: `Top`, `Text`, `Paragraph`, `Heading`,
`List`, `List_item`, `Hard_break`, `Unknown`, `Href`, `Image`, `Blockquote`.
`heading`'s level and the `href`/`image` urls keep the raw JSON value the
parser stored, since the source's constructors perform no conversion. -/
inductive Ast where
  | top : List Ast → Ast
  | text : String → Ast
  | paragraph : List Ast → Ast
  | heading : Json → List Ast → Ast
  | list : List Ast → Ast
  | list_item : List Ast → Ast
  | hard_break : Ast
  | unknown : Json → Ast
  | href : Json → List Ast → Ast
  | image : Json → Ast
  | blockquote : List Ast → Ast

/- Structural size of an AST, the fuel measure for the recursive
renderer. -/
mutual
def Ast.size : Ast → Nat
  | .top cs => 1 + Ast.sizeList cs
  | .text _ => 1
  | .paragraph cs => 1 + Ast.sizeList cs
  | .heading _ cs => 1 + Ast.sizeList cs
  | .list cs => 1 + Ast.sizeList cs
  | .list_item cs => 1 + Ast.sizeList cs
  | .hard_break => 1
  | .unknown _ => 1
  | .href _ cs => 1 + Ast.sizeList cs
  | .image _ => 1
  | .blockquote cs => 1 + Ast.sizeList cs

def Ast.sizeList : List Ast → Nat
  | [] => 0
  | c :: cs => Ast.size c + Ast.sizeList cs
end

/-- One character of CPython `repr` of a string, for the printable common
case: backslash, the quote and the usual control characters escaped. -/
def escRepr (c : Char) : String :=
  if c = '\\' then "\\\\"
  else if c = '\'' then "\\'"
  else if c = '\n' then "\\n"
  else if c = '\r' then "\\r"
  else if c = '\t' then "\\t"
  else String.singleton c

/-- CPython `repr` of a string, modelled for the common case: single quotes
(the double-quote preference rule and non-printable escapes are not
modelled; no value rendered by the claims reaches them). -/
def pyReprStr (s : String) : String :=
  "'" ++ String.join (s.data.map escRepr) ++ "'"

/-- CPython `repr` of a value loaded by `json.load`, by fuel. -/
def pyRepr_fuel : Nat → Json → String
  | 0, _ => ""
  | n+1, j =>
    match j with
    | .null => "None"
    | .bool true => "True"
    | .bool false => "False"
    | .num i => toString i
    | .str s => pyReprStr s
    | .arr xs =>
      "[" ++ String.intercalate ", " (xs.map (fun e => pyRepr_fuel n e)) ++ "]"
    | .obj kvs =>
      "\x7b" ++
        String.intercalate ", "
          (kvs.map (fun kv => pyReprStr kv.1 ++ ": " ++ pyRepr_fuel n kv.2)) ++
      "\x7d"

/-- CPython `str()` of a value loaded by `json.load`: the string itself for
a string, `repr` otherwise.  This is what an f-string interpolation applies
to the stored raw values (heading level, urls). -/
def Json.pyStr (j : Json) : String :=
  match j with
  | .str s => s
  | _ => pyRepr_fuel (Json.size j) j

/-- One character of `json.dumps` string escaping (default options), for
the common case: quote, backslash and the usual control characters. -/
def escJson (c : Char) : String :=
  if c = '"' then "\\\""
  else if c = '\\' then "\\\\"
  else if c = '\n' then "\\n"
  else if c = '\r' then "\\r"
  else if c = '\t' then "\\t"
  else String.singleton c

def jsonEscStr (s : String) : String :=
  "\"" ++ String.join (s.data.map escJson) ++ "\""

/-- Python `json.dumps` with its default separators, by fuel. -/
def dumps_fuel : Nat → Json → String
  | 0, _ => ""
  | n+1, j =>
    match j with
    | .null => "null"
    | .bool true => "true"
    | .bool false => "false"
    | .num i => toString i
    | .str s => jsonEscStr s
    | .arr xs =>
      "[" ++ String.intercalate ", " (xs.map (fun e => dumps_fuel n e)) ++ "]"
    | .obj kvs =>
      "\x7b" ++
        String.intercalate ", "
          (kvs.map (fun kv => jsonEscStr kv.1 ++ ": " ++ dumps_fuel n kv.2)) ++
      "\x7d"

/-- Python `json.dumps` of a loaded value, as written by `Unknown.print`. -/
def Json.dumps (j : Json) : String :=
  dumps_fuel (Json.size j) j

/-- Map a constructor over the result of a fuelled child computation,
propagating both fuel exhaustion (`none`) and parse errors. -/
def liftA (f : List Ast → Ast) :
    Option (Except Err (List Ast)) → Option (Except Err Ast)
  | none => none
  | some (Except.error er) => some (Except.error er)
  | some (Except.ok cs) => some (Except.ok (f cs))

/-- The dispatch of one mark in `parse_marks` on the value of `m['type']`:
`'link'` wraps the accumulated node in `Href(m.attrs.href, [acc])`, any
other value is a no-op (`case _: pass`). -/
def markStep_ty (m : Json) (acc : Ast) : Json → Except Err Ast
  | Json.str s =>
    if s = "link" then
      ebind (m.index "attrs") fun attrs =>
      ebind (attrs.index "href") fun u =>
      .ok (Ast.href u [acc])
    else .ok acc
  | _ => .ok acc

/-- One mark of the `for m in marks` loop of `parse_marks`. -/
def markStep (acc : Ast) (m : Json) : Except Err Ast :=
  ebind (m.index "type") (markStep_ty m acc)

/-- The `for m in marks` loop of `parse_marks`, folding the marks in the
given order over the accumulated node. -/
def runMarks : List Json → Ast → Except Err Ast
  | [], t => .ok t
  | m :: ms, t => ebind (markStep t m) fun t2 => runMarks ms t2

/-- The source's `parse_marks(marks, d)`. -/
def parse_marks (marks : Json) (t : Ast) : Except Err Ast :=
  ebind marks.elems fun ms => runMarks ms t

/-- The match of `parse_image` on `d['attrs'].get('boxSharedLink')`, whose
Python value `None` stands both for an absent key and a stored JSON
`null`; either way the node degrades to `Unknown(d)`, otherwise it becomes
`Image(url)` with the raw value. -/
def parse_image_opt (d : Json) : Option Json → Except Err Ast
  | none => .ok (Ast.unknown d)
  | some Json.null => .ok (Ast.unknown d)
  | some url => .ok (Ast.image url)

/-- The source's `parse_image`. -/
def parse_image (d : Json) : Except Err Ast :=
  ebind (d.index "attrs") fun attrs =>
  ebind (attrs.dictGetOpt "boxSharedLink") (parse_image_opt d)

/-- The list comprehension `[parse_doc(e) for e in ...]`, parameterized by
the (fuelled) parser applied to each element; the first error aborts. -/
def parse_list_go (pd : Json → Option (Except Err Ast)) :
    List Json → Option (Except Err (List Ast))
  | [] => some (Except.ok [])
  | e :: es =>
    oebind (pd e) fun a =>
    oebind (parse_list_go pd es) fun as =>
    some (Except.ok (a :: as))

/-- The source's `parse_content`, parameterized by the fuelled parser:
`d.get('content', [])` followed by the comprehension over its elements. -/
def parse_content_go (pd : Json → Option (Except Err Ast)) (d : Json) :
    Option (Except Err (List Ast)) :=
  obind (Json.dictGet d "content" (Json.arr [])) fun c =>
  obind c.elems fun es =>
  parse_list_go pd es

/-- The `'text'` arm of `parse_doc` on the value of `d['text']`.  The
stored value is required to be a string: the source stores it unchecked,
and a non-string would make `out.write` raise a `TypeError` at render
time; the model front-loads that `TypeError` so that the renderer stays
total, as it is on every tree the source can render. -/
def parse_text_val (d : Json) : Json → Option (Except Err Ast)
  | Json.str txt =>
    if d.hasKey "marks" then
      obind (d.index "marks") fun mv => some (parse_marks mv (Ast.text txt))
    else some (.ok (Ast.text txt))
  | _ => some (.error Err.typeError)

/-- The `match d['type']` dispatch of the source's `parse_doc` on the type
value, parameterized by the recursive children parser `pc` (which the
source reaches only as `parse_content(d)` on the same `d`); a non-string
or unrecognized type value falls through to `Unknown(d)`. -/
def parse_step_ty (pc : Json → Option (Except Err (List Ast))) (d : Json) :
    Json → Option (Except Err Ast)
  | Json.str s =>
    if s = "doc" then liftA Ast.top (pc d)
    else if s = "text" then obind (d.index "text") (parse_text_val d)
    else if s = "heading" then
      obind (d.index "attrs") fun attrs =>
      obind (attrs.index "level") fun lv =>
      liftA (Ast.heading lv) (pc d)
    else if s = "paragraph" then liftA Ast.paragraph (pc d)
    else if s = "bullet_list" then liftA Ast.list (pc d)
    else if s = "hard_break" then some (.ok Ast.hard_break)
    else if s = "list_item" then liftA Ast.list_item (pc d)
    else if s = "image" then some (parse_image d)
    else if s = "blockquote" then liftA Ast.blockquote (pc d)
    else some (.ok (Ast.unknown d))
  | _ => some (.ok (Ast.unknown d))

/-- One step of the source's `parse_doc`: read `d['type']` and dispatch. -/
def parse_step (pc : Json → Option (Except Err (List Ast))) (d : Json) :
    Option (Except Err Ast) :=
  obind (d.index "type") (parse_step_ty pc d)

/-- The source's recursive `parse_doc`, by fuel; `none` is fuel exhaustion,
never reached from `Json.size` fuel (proved below). -/
def parse_doc_fuel : Nat → Json → Option (Except Err Ast)
  | 0, _ => none
  | n+1, d => parse_step (parse_content_go (fun e => parse_doc_fuel n e)) d

/-- The source's `parse_doc`. -/
def parse_doc (d : Json) : Except Err Ast :=
  (parse_doc_fuel (Json.size d) d).getD (Except.error Err.typeError)

/-- The list comprehension of `parse_content` over the already-total
parser. -/
def parseList : List Json → Except Err (List Ast)
  | [] => .ok []
  | e :: es =>
    ebind (parse_doc e) fun a =>
    ebind (parseList es) fun as =>
    .ok (a :: as)

/-- The source's `parse_content`. -/
def parse_content (d : Json) : Except Err (List Ast) :=
  ebind (Json.dictGet d "content" (Json.arr [])) fun c =>
  ebind c.elems fun es =>
  parseList es

/-- The source's `parse_top`: reads `version` and `schema_version` (their
values unused), then parses `doc`. -/
def parse_top (d : Json) : Except Err Ast :=
  ebind (d.index "version") fun _ =>
  ebind (d.index "schema_version") fun _ =>
  ebind (d.index "doc") fun doc =>
  parse_doc doc

/-- The element list of a successful iteration, empty on error; only used
to measure the recursion. -/
def exToList {α : Type} : Except Err (List α) → List α
  | .error _ => []
  | .ok es => es

/-- Whether an AST node is a `List_item`, used to state the shape of the
items of a parsed bullet list. -/
def Ast.isListItem : Ast → Bool
  | .list_item _ => true
  | _ => false

/-- The child objects `parse_content` recurses into, used to measure the
recursion. -/
def contentElems (d : Json) : List Json :=
  match Json.dictGet d "content" (Json.arr []) with
  | .error _ => []
  | .ok c => exToList c.elems

/-- The `prints` loop over a child list, parameterized by the fuelled
renderer. -/
def prints_go (pr : Ast → String → Option String) :
    List Ast → String → Option String
  | [], out => some out
  | c :: cs, out => osbind (pr c out) fun out2 => prints_go pr cs out2

/-- The first-child special case of `List_item.print`: a `Paragraph` first
child has its children rendered directly (markers skipped), any other first
child renders through its own rule. -/
def printFirstItem (pr : Ast → String → Option String) (c : Ast) (out : String) :
    Option String :=
  match c with
  | .paragraph ps => prints_go pr ps out
  | _ => pr c out

/-- The `for i, c in enumerate(self.content)` loop of `List_item.print`:
the first child goes through `printFirstItem`, the rest render normally. -/
def print_item_children (pr : Ast → String → Option String) :
    List Ast → String → Option String
  | [], out => some out
  | c :: rest, out =>
    osbind (printFirstItem pr c out) fun o => prints_go pr rest o

/-- One step of the renderer: the per-class `print` bodies, with each
`out.write(s)` modelled as appending `s` to the accumulated sink. -/
def print_step (pr : Ast → String → Option String) : Ast → String → Option String
  | .top cs, out => prints_go pr cs out
  | .text s, out => some (out ++ s)
  | .paragraph cs, out =>
    osbind (prints_go pr cs (out ++ "<p>\n")) fun o => some (o ++ "<p/>\n")
  | .heading lv cs, out =>
    osbind (prints_go pr cs (out ++ "<h" ++ Json.pyStr lv ++ ">")) fun o =>
      some (o ++ "</h" ++ Json.pyStr lv ++ ">\n")
  | .list cs, out =>
    osbind (prints_go pr cs (out ++ "<ul>")) fun o => some (o ++ "</ul>")
  | .list_item cs, out =>
    osbind (print_item_children pr cs (out ++ "<li>")) fun o =>
      some (o ++ "</li>")
  | .hard_break, out => some (out ++ "<br/>")
  | .unknown d, out => some (out ++ "<pre>\n" ++ Json.dumps d ++ "\n</pre>\n")
  | .href u cs, out =>
    osbind (prints_go pr cs (out ++ "<a href=\"" ++ Json.pyStr u ++ "\">")) fun o =>
      some (o ++ "</a>")
  | .image u, out => some (out ++ "<img src=\"" ++ Json.pyStr u ++ "\"/>")
  | .blockquote cs, out =>
    osbind (prints_go pr cs (out ++ "<blockquote>")) fun o =>
      some (o ++ "</blockquote>")

/-- The recursive renderer, by fuel. -/
def Ast.print_fuel : Nat → Ast → String → Option String
  | 0, _, _ => none
  | n+1, t, out => print_step (fun c o => Ast.print_fuel n c o) t out

/-- The renderer `Ast.print`: the markup written for `t` appended to the
sink `out`. -/
def Ast.print (t : Ast) (out : String) : String :=
  (Ast.print_fuel (Ast.size t) t out).getD out

/-- The source's `prints(out, cs)` loop over the total renderer. -/
def prints : List Ast → String → String
  | [], out => out
  | c :: cs, out => prints cs (Ast.print c out)

theorem string_append_assoc (a b c : String) : a ++ b ++ c = a ++ (b ++ c) := by
  rcases a with ⟨la⟩; rcases b with ⟨lb⟩; rcases c with ⟨lc⟩
  show String.mk (la ++ lb ++ lc) = String.mk (la ++ (lb ++ lc))
  rw [List.append_assoc]

theorem json_size_pos (j : Json) : 0 < Json.size j := by
  cases j <;> simp only [Json.size] <;> omega

theorem ast_size_pos (t : Ast) : 0 < Ast.size t := by
  cases t <;> simp only [Ast.size] <;> omega

theorem json_sizeList_le_of_mem {e : Json} {xs : List Json} (h : e ∈ xs) :
    Json.size e ≤ Json.sizeList xs := by
  induction xs with
  | nil => cases h
  | cons x xs ih =>
    cases h with
    | head => simp only [Json.sizeList]; omega
    | tail _ hm => have := ih hm; simp only [Json.sizeList]; omega

theorem ast_sizeList_le_of_mem {c : Ast} {cs : List Ast} (h : c ∈ cs) :
    Ast.size c ≤ Ast.sizeList cs := by
  induction cs with
  | nil => cases h
  | cons x xs ih =>
    cases h with
    | head => simp only [Ast.sizeList]; omega
    | tail _ hm => have := ih hm; simp only [Ast.sizeList]; omega

theorem lookupLast_size {kvs : List (String × Json)} {key : String} {v : Json}
    (h : lookupLast kvs key = some v) : Json.size v ≤ Json.sizeKvs kvs := by
  induction kvs with
  | nil => simp [lookupLast] at h
  | cons kv rest ih =>
    simp only [lookupLast] at h
    cases hr : lookupLast rest key with
    | some r =>
      rw [hr] at h
      simp only [Option.some.injEq] at h
      subst h
      have := ih hr
      simp only [Json.sizeKvs]
      omega
    | none =>
      rw [hr] at h
      by_cases hk : kv.1 = key
      · rw [if_pos hk] at h
        simp only [Option.some.injEq] at h
        subst h
        simp only [Json.sizeKvs]
        omega
      · rw [if_neg hk] at h
        cases h

theorem contentElems_size {d e : Json} (h : e ∈ contentElems d) :
    Json.size e < Json.size d := by
  cases d with
  | obj kvs =>
    unfold contentElems at h
    simp only [Json.dictGet] at h
    cases hl : lookupLast kvs "content" with
    | none =>
      rw [hl] at h
      simp [Json.elems, exToList] at h
    | some c =>
      rw [hl] at h
      cases c with
      | arr xs =>
        simp only [Option.getD_some, Json.elems, exToList] at h
        have h1 := json_sizeList_le_of_mem h
        have h2 := lookupLast_size hl
        have h3 : Json.size (Json.arr xs) = 1 + Json.sizeList xs := by
          simp [Json.size]
        have h4 : Json.size (Json.obj kvs) = 1 + Json.sizeKvs kvs := by
          simp [Json.size]
        omega
      | null => simp [Json.elems, exToList] at h
      | bool b => simp [Json.elems, exToList] at h
      | num i => simp [Json.elems, exToList] at h
      | str s => simp [Json.elems, exToList] at h
      | obj kvs2 => simp [Json.elems, exToList] at h
  | null => simp [contentElems, Json.dictGet] at h
  | bool b => simp [contentElems, Json.dictGet] at h
  | num i => simp [contentElems, Json.dictGet] at h
  | str s => simp [contentElems, Json.dictGet] at h
  | arr xs => simp [contentElems, Json.dictGet] at h

theorem liftA_some (f : List Ast → Ast) (e : Except Err (List Ast)) :
    liftA f (some e) = some (Except.map f e) := by
  cases e <;> rfl

theorem liftA_mono {o o2 : Option (Except Err (List Ast))} (f : List Ast → Ast)
    (h : ∀ x, o = some x → o2 = some x) :
    ∀ r, liftA f o = some r → liftA f o2 = some r := by
  intro r hr
  cases ho : o with
  | none => rw [ho] at hr; simp [liftA] at hr
  | some x => rw [ho] at hr; rw [h x ho]; exact hr

theorem liftA_ne_none {o : Option (Except Err (List Ast))} (f : List Ast → Ast)
    (h : o ≠ none) : liftA f o ≠ none := by
  cases ho : o with
  | none => exact absurd ho h
  | some x => cases x <;> simp [liftA]

theorem obind_eq_some {α β : Type} {x : Except Err α}
    {f f2 : α → Option (Except Err β)}
    (hf : ∀ a r, f a = some r → f2 a = some r) :
    ∀ r, obind x f = some r → obind x f2 = some r := by
  intro r hr
  cases hx : x with
  | error er => subst hx; exact hr
  | ok a =>
    subst hx
    simp only [obind] at hr ⊢
    exact hf a r hr

theorem obind_ne_none {α β : Type} {x : Except Err α}
    {f : α → Option (Except Err β)}
    (hf : ∀ a, x = .ok a → f a ≠ none) : obind x f ≠ none := by
  cases hx : x with
  | error er => simp [obind]
  | ok a => simp only [obind]; exact hf a hx

theorem oebind_eq_some {α β : Type} {x x2 : Option (Except Err α)}
    {f f2 : α → Option (Except Err β)}
    (hx : ∀ v, x = some v → x2 = some v)
    (hf : ∀ a r, f a = some r → f2 a = some r) :
    ∀ r, oebind x f = some r → oebind x2 f2 = some r := by
  intro r hr
  cases hxv : x with
  | none => rw [hxv] at hr; simp [oebind] at hr
  | some v =>
    rw [hxv] at hr
    rw [hx v hxv]
    cases v with
    | error er => exact hr
    | ok a =>
      simp only [oebind] at hr ⊢
      exact hf a r hr

theorem oebind_ne_none {α β : Type} {x : Option (Except Err α)}
    {f : α → Option (Except Err β)} (hx : x ≠ none)
    (hf : ∀ a, x = some (.ok a) → f a ≠ none) : oebind x f ≠ none := by
  cases hxv : x with
  | none => exact absurd hxv hx
  | some v =>
    cases v with
    | error er => simp [oebind]
    | ok a => simp only [oebind]; exact hf a hxv

theorem parse_list_go_mono {pd pd2 : Json → Option (Except Err Ast)}
    (h : ∀ e r, pd e = some r → pd2 e = some r) :
    ∀ es r, parse_list_go pd es = some r → parse_list_go pd2 es = some r := by
  intro es
  induction es with
  | nil => intro r hr; exact hr
  | cons e es ih =>
    intro r hr
    simp only [parse_list_go] at hr ⊢
    exact oebind_eq_some (h e)
      (fun a => oebind_eq_some (fun v hv => ih v hv) (fun as r2 h2 => h2)) r hr

theorem parse_content_go_mono {pd pd2 : Json → Option (Except Err Ast)}
    (h : ∀ e r, pd e = some r → pd2 e = some r) (d : Json) :
    ∀ r, parse_content_go pd d = some r → parse_content_go pd2 d = some r := by
  intro r hr
  simp only [parse_content_go] at hr ⊢
  exact obind_eq_some
    (fun c => obind_eq_some (fun es => parse_list_go_mono h es)) r hr

set_option maxHeartbeats 1000000 in
theorem parse_step_mono {pc pc2 : Json → Option (Except Err (List Ast))} (d : Json)
    (h : ∀ x, pc d = some x → pc2 d = some x) :
    ∀ r, parse_step pc d = some r → parse_step pc2 d = some r := by
  intro r
  simp only [parse_step]
  apply obind_eq_some
  intro ty r2
  cases ty with
  | str s =>
    simp only [parse_step_ty]
    split_ifs <;>
      first
        | exact id
        | exact liftA_mono _ h r2
        | exact obind_eq_some (fun attrs =>
            obind_eq_some (fun lv => liftA_mono (Ast.heading lv) h)) r2
  | null => simp only [parse_step_ty]; exact id
  | bool b => simp only [parse_step_ty]; exact id
  | num i => simp only [parse_step_ty]; exact id
  | arr xs => simp only [parse_step_ty]; exact id
  | obj kvs => simp only [parse_step_ty]; exact id

theorem parse_doc_fuel_mono :
    ∀ n m, n ≤ m → ∀ d r, parse_doc_fuel n d = some r → parse_doc_fuel m d = some r := by
  intro n
  induction n with
  | zero => intro m _ d r h; cases h
  | succ k ih =>
    intro m hm d r h
    obtain ⟨m2, rfl⟩ : ∃ m2, m = m2 + 1 := ⟨m - 1, by omega⟩
    simp only [parse_doc_fuel] at h ⊢
    exact parse_step_mono d
      (fun x hx =>
        parse_content_go_mono (fun e r2 h2 => ih m2 (by omega) e r2 h2) d x hx) r h

theorem parse_list_go_ne_none {pd : Json → Option (Except Err Ast)} {es : List Json}
    (h : ∀ e ∈ es, pd e ≠ none) : parse_list_go pd es ≠ none := by
  induction es with
  | nil => simp [parse_list_go]
  | cons e es ih =>
    simp only [parse_list_go]
    apply oebind_ne_none (h e (List.mem_cons_self e es))
    intro a _
    apply oebind_ne_none (ih (fun e2 he2 => h e2 (List.mem_cons_of_mem e he2)))
    intro as _
    simp

theorem parse_content_go_ne_none {pd : Json → Option (Except Err Ast)} {d : Json}
    (h : ∀ e ∈ contentElems d, pd e ≠ none) : parse_content_go pd d ≠ none := by
  simp only [parse_content_go]
  apply obind_ne_none
  intro c hc
  apply obind_ne_none
  intro es hes
  apply parse_list_go_ne_none
  intro e he
  apply h
  unfold contentElems
  rw [hc]
  show e ∈ exToList c.elems
  rw [hes]
  simpa [exToList] using he

set_option maxHeartbeats 1000000 in
theorem parse_step_ne_none {pc : Json → Option (Except Err (List Ast))} {d : Json}
    (h : pc d ≠ none) : parse_step pc d ≠ none := by
  simp only [parse_step]
  apply obind_ne_none
  intro ty _
  cases ty with
  | str s =>
    simp only [parse_step_ty]
    split_ifs
    · exact liftA_ne_none _ h
    · apply obind_ne_none
      intro tv _
      cases tv with
      | str txt =>
        simp only [parse_text_val]
        cases hk : Json.hasKey d "marks" with
        | false => simp
        | true =>
          rw [if_pos rfl]
          apply obind_ne_none
          intro mv _
          simp
      | null => simp [parse_text_val]
      | bool b => simp [parse_text_val]
      | num i => simp [parse_text_val]
      | arr xs => simp [parse_text_val]
      | obj kvs => simp [parse_text_val]
    · apply obind_ne_none
      intro attrs _
      apply obind_ne_none
      intro lv _
      exact liftA_ne_none _ h
    · exact liftA_ne_none _ h
    · exact liftA_ne_none _ h
    · simp
    · exact liftA_ne_none _ h
    · simp
    · exact liftA_ne_none _ h
    · simp
  | null => simp [parse_step_ty]
  | bool b => simp [parse_step_ty]
  | num i => simp [parse_step_ty]
  | arr xs => simp [parse_step_ty]
  | obj kvs => simp [parse_step_ty]

theorem parse_doc_fuel_ne_none :
    ∀ n d, Json.size d ≤ n → parse_doc_fuel n d ≠ none := by
  intro n
  induction n with
  | zero =>
    intro d hd
    exfalso
    have := json_size_pos d
    omega
  | succ k ih =>
    intro d hd
    simp only [parse_doc_fuel]
    apply parse_step_ne_none
    apply parse_content_go_ne_none
    intro e he
    apply ih
    have := contentElems_size he
    omega

theorem parse_doc_fuel_eq {n : Nat} {d : Json} (h : Json.size d ≤ n) :
    parse_doc_fuel n d = some (parse_doc d) := by
  cases hs : parse_doc_fuel (Json.size d) d with
  | none => exact absurd hs (parse_doc_fuel_ne_none _ d le_rfl)
  | some r =>
    have h2 : parse_doc_fuel n d = some r :=
      parse_doc_fuel_mono (Json.size d) n h d r hs
    rw [h2]
    simp only [parse_doc, hs, Option.getD_some]

theorem parse_list_go_eq {n : Nat} {es : List Json}
    (h : ∀ e ∈ es, Json.size e ≤ n) :
    parse_list_go (fun e => parse_doc_fuel n e) es = some (parseList es) := by
  induction es with
  | nil => rfl
  | cons e es ih =>
    simp only [parse_list_go, parseList]
    rw [parse_doc_fuel_eq (h e (List.mem_cons_self e es))]
    cases parse_doc e with
    | error er => rfl
    | ok a =>
      simp only [oebind, ebind]
      rw [ih (fun e2 he2 => h e2 (List.mem_cons_of_mem e he2))]
      cases parseList es with
      | error er => rfl
      | ok as => rfl

theorem parse_content_go_eq {n : Nat} {d : Json}
    (h : ∀ e ∈ contentElems d, Json.size e ≤ n) :
    parse_content_go (fun e => parse_doc_fuel n e) d = some (parse_content d) := by
  simp only [parse_content_go, parse_content]
  cases hc : Json.dictGet d "content" (Json.arr []) with
  | error er => rfl
  | ok c =>
    simp only [obind, ebind]
    cases hes : c.elems with
    | error er => rfl
    | ok es =>
      simp only [obind, ebind]
      apply parse_list_go_eq
      intro e he
      apply h
      unfold contentElems
      rw [hc]
      show e ∈ exToList c.elems
      rw [hes]
      simpa [exToList] using he

theorem parse_step_congr {pc pc2 : Json → Option (Except Err (List Ast))} {d : Json}
    (h : pc d = pc2 d) : parse_step pc d = parse_step pc2 d := by
  simp only [parse_step]
  congr 1
  funext ty
  cases ty with
  | str s => simp only [parse_step_ty, h]
  | null => simp only [parse_step_ty]
  | bool b => simp only [parse_step_ty]
  | num i => simp only [parse_step_ty]
  | arr xs => simp only [parse_step_ty]
  | obj kvs => simp only [parse_step_ty]

theorem parse_doc_eq_step (d : Json) :
    parse_step (fun e => some (parse_content e)) d = some (parse_doc d) := by
  obtain ⟨m, hm⟩ : ∃ m, Json.size d = m + 1 :=
    ⟨Json.size d - 1, by have := json_size_pos d; omega⟩
  have h1 : parse_doc_fuel (Json.size d) d = some (parse_doc d) :=
    parse_doc_fuel_eq le_rfl
  rw [hm] at h1
  simp only [parse_doc_fuel] at h1
  have h2 : parse_content_go (fun e => parse_doc_fuel m e) d = some (parse_content d) := by
    apply parse_content_go_eq
    intro e he
    have := contentElems_size he
    omega
  rw [← h1]
  exact parse_step_congr h2.symm

theorem osbind_eq_some {x x2 : Option String} {f f2 : String → Option String}
    (hx : ∀ o, x = some o → x2 = some o)
    (hf : ∀ o r, f o = some r → f2 o = some r) :
    ∀ r, osbind x f = some r → osbind x2 f2 = some r := by
  intro r hr
  cases hxv : x with
  | none => rw [hxv] at hr; simp [osbind] at hr
  | some o =>
    rw [hxv] at hr
    rw [hx o hxv]
    simp only [osbind] at hr ⊢
    exact hf o r hr

theorem osbind_ne_none {x : Option String} {f : String → Option String}
    (hx : x ≠ none) (hf : ∀ o, x = some o → f o ≠ none) : osbind x f ≠ none := by
  cases hxv : x with
  | none => exact absurd hxv hx
  | some o => simp only [osbind]; exact hf o hxv

theorem prints_go_mono {pr pr2 : Ast → String → Option String}
    (h : ∀ c o r, pr c o = some r → pr2 c o = some r) :
    ∀ cs out r, prints_go pr cs out = some r → prints_go pr2 cs out = some r := by
  intro cs
  induction cs with
  | nil => intro out r hr; exact hr
  | cons c cs ih =>
    intro out r hr
    simp only [prints_go] at hr ⊢
    exact osbind_eq_some (h c out) (fun o2 => ih o2) r hr

theorem printFirstItem_mono {pr pr2 : Ast → String → Option String}
    (h : ∀ c o r, pr c o = some r → pr2 c o = some r) :
    ∀ c out r, printFirstItem pr c out = some r → printFirstItem pr2 c out = some r := by
  intro c out r hr
  cases c with
  | paragraph ps => exact prints_go_mono h ps out r hr
  | top cs => exact h _ _ _ hr
  | text s => exact h _ _ _ hr
  | heading lv cs => exact h _ _ _ hr
  | list cs => exact h _ _ _ hr
  | list_item cs => exact h _ _ _ hr
  | hard_break => exact h _ _ _ hr
  | unknown d => exact h _ _ _ hr
  | href u cs => exact h _ _ _ hr
  | image u => exact h _ _ _ hr
  | blockquote cs => exact h _ _ _ hr

theorem print_item_children_mono {pr pr2 : Ast → String → Option String}
    (h : ∀ c o r, pr c o = some r → pr2 c o = some r) :
    ∀ cs out r, print_item_children pr cs out = some r →
      print_item_children pr2 cs out = some r := by
  intro cs out r hr
  cases cs with
  | nil => exact hr
  | cons c rest =>
    simp only [print_item_children] at hr ⊢
    exact osbind_eq_some (printFirstItem_mono h c out)
      (fun o => prints_go_mono h rest o) r hr

theorem print_step_mono {pr pr2 : Ast → String → Option String}
    (h : ∀ c o r, pr c o = some r → pr2 c o = some r) :
    ∀ t out r, print_step pr t out = some r → print_step pr2 t out = some r := by
  intro t out r hr
  cases t with
  | top cs => exact prints_go_mono h cs out r hr
  | text s => exact hr
  | paragraph cs =>
    simp only [print_step] at hr ⊢
    exact osbind_eq_some (prints_go_mono h cs _) (fun o r2 => id) r hr
  | heading lv cs =>
    simp only [print_step] at hr ⊢
    exact osbind_eq_some (prints_go_mono h cs _) (fun o r2 => id) r hr
  | list cs =>
    simp only [print_step] at hr ⊢
    exact osbind_eq_some (prints_go_mono h cs _) (fun o r2 => id) r hr
  | list_item cs =>
    simp only [print_step] at hr ⊢
    exact osbind_eq_some (print_item_children_mono h cs _) (fun o r2 => id) r hr
  | hard_break => exact hr
  | unknown d => exact hr
  | href u cs =>
    simp only [print_step] at hr ⊢
    exact osbind_eq_some (prints_go_mono h cs _) (fun o r2 => id) r hr
  | image u => exact hr
  | blockquote cs =>
    simp only [print_step] at hr ⊢
    exact osbind_eq_some (prints_go_mono h cs _) (fun o r2 => id) r hr

theorem print_fuel_mono :
    ∀ n m, n ≤ m → ∀ t out r,
      Ast.print_fuel n t out = some r → Ast.print_fuel m t out = some r := by
  intro n
  induction n with
  | zero => intro m _ t out r h; cases h
  | succ k ih =>
    intro m hm t out r h
    obtain ⟨m2, rfl⟩ : ∃ m2, m = m2 + 1 := ⟨m - 1, by omega⟩
    simp only [Ast.print_fuel] at h ⊢
    exact print_step_mono (fun c o r2 h2 => ih m2 (by omega) c o r2 h2) t out r h

theorem prints_go_ne_none {pr : Ast → String → Option String} {cs : List Ast}
    (h : ∀ c ∈ cs, ∀ o, pr c o ≠ none) : ∀ out, prints_go pr cs out ≠ none := by
  induction cs with
  | nil => intro out; simp [prints_go]
  | cons c cs ih =>
    intro out
    simp only [prints_go]
    apply osbind_ne_none (h c (List.mem_cons_self c cs) out)
    intro o _
    exact ih (fun c2 hc2 => h c2 (List.mem_cons_of_mem c hc2)) o

theorem printFirstItem_ne_none {pr : Ast → String → Option String} {c : Ast}
    (hc : ∀ o, pr c o ≠ none)
    (hps : ∀ ps, c = Ast.paragraph ps → ∀ p ∈ ps, ∀ o, pr p o ≠ none) :
    ∀ out, printFirstItem pr c out ≠ none := by
  intro out
  cases c with
  | paragraph ps => exact prints_go_ne_none (hps ps rfl) out
  | top cs => exact hc out
  | text s => exact hc out
  | heading lv cs => exact hc out
  | list cs => exact hc out
  | list_item cs => exact hc out
  | hard_break => exact hc out
  | unknown d => exact hc out
  | href u cs => exact hc out
  | image u => exact hc out
  | blockquote cs => exact hc out

theorem print_item_children_ne_none {pr : Ast → String → Option String}
    {cs : List Ast}
    (h : ∀ c ∈ cs, ∀ o, pr c o ≠ none)
    (hps : ∀ c ∈ cs, ∀ ps, c = Ast.paragraph ps → ∀ p ∈ ps, ∀ o, pr p o ≠ none) :
    ∀ out, print_item_children pr cs out ≠ none := by
  intro out
  cases cs with
  | nil => simp [print_item_children]
  | cons c rest =>
    simp only [print_item_children]
    apply osbind_ne_none
      (printFirstItem_ne_none (h c (List.mem_cons_self c rest))
        (hps c (List.mem_cons_self c rest)) out)
    intro o _
    exact prints_go_ne_none (fun c2 hc2 => h c2 (List.mem_cons_of_mem c hc2)) o

theorem print_step_ne_none {pr : Ast → String → Option String} {t : Ast}
    (h : ∀ c, Ast.size c < Ast.size t → ∀ o, pr c o ≠ none) :
    ∀ out, print_step pr t out ≠ none := by
  intro out
  cases t with
  | top cs =>
    exact prints_go_ne_none
      (fun c hc o => h c (by
        have := ast_sizeList_le_of_mem hc
        simp only [Ast.size]
        omega) o) out
  | text s => simp [print_step]
  | paragraph cs =>
    simp only [print_step]
    apply osbind_ne_none
      (prints_go_ne_none
        (fun c hc o => h c (by
          have := ast_sizeList_le_of_mem hc
          simp only [Ast.size]
          omega) o) _)
    intro o _
    simp
  | heading lv cs =>
    simp only [print_step]
    apply osbind_ne_none
      (prints_go_ne_none
        (fun c hc o => h c (by
          have := ast_sizeList_le_of_mem hc
          simp only [Ast.size]
          omega) o) _)
    intro o _
    simp
  | list cs =>
    simp only [print_step]
    apply osbind_ne_none
      (prints_go_ne_none
        (fun c hc o => h c (by
          have := ast_sizeList_le_of_mem hc
          simp only [Ast.size]
          omega) o) _)
    intro o _
    simp
  | list_item cs =>
    simp only [print_step]
    apply osbind_ne_none
    · apply print_item_children_ne_none
      · intro c hc o
        apply h
        have := ast_sizeList_le_of_mem hc
        simp only [Ast.size]
        omega
      · intro c hc ps hcp p hp o
        apply h
        subst hcp
        have h1 := ast_sizeList_le_of_mem hc
        have h2 := ast_sizeList_le_of_mem hp
        simp only [Ast.size] at h1 ⊢
        omega
    · intro o _
      simp
  | hard_break => simp [print_step]
  | unknown d => simp [print_step]
  | href u cs =>
    simp only [print_step]
    apply osbind_ne_none
      (prints_go_ne_none
        (fun c hc o => h c (by
          have := ast_sizeList_le_of_mem hc
          simp only [Ast.size]
          omega) o) _)
    intro o _
    simp
  | image u => simp [print_step]
  | blockquote cs =>
    simp only [print_step]
    apply osbind_ne_none
      (prints_go_ne_none
        (fun c hc o => h c (by
          have := ast_sizeList_le_of_mem hc
          simp only [Ast.size]
          omega) o) _)
    intro o _
    simp

theorem print_fuel_ne_none :
    ∀ n t, Ast.size t ≤ n → ∀ out, Ast.print_fuel n t out ≠ none := by
  intro n
  induction n with
  | zero =>
    intro t ht out
    exfalso
    have := ast_size_pos t
    omega
  | succ k ih =>
    intro t ht out
    simp only [Ast.print_fuel]
    apply print_step_ne_none
    intro c hc o
    exact ih c (by omega) o

theorem print_fuel_eq {n : Nat} {t : Ast} (h : Ast.size t ≤ n) (out : String) :
    Ast.print_fuel n t out = some (Ast.print t out) := by
  cases hs : Ast.print_fuel (Ast.size t) t out with
  | none => exact absurd hs (print_fuel_ne_none _ t le_rfl out)
  | some r =>
    have h2 := print_fuel_mono (Ast.size t) n h t out r hs
    rw [h2]
    simp only [Ast.print, hs, Option.getD_some]

theorem prints_go_eq {n : Nat} {cs : List Ast} (h : ∀ c ∈ cs, Ast.size c ≤ n) :
    ∀ out, prints_go (fun c o => Ast.print_fuel n c o) cs out = some (prints cs out) := by
  induction cs with
  | nil => intro out; rfl
  | cons c cs ih =>
    intro out
    simp only [prints_go, prints]
    rw [print_fuel_eq (h c (List.mem_cons_self c cs))]
    simp only [osbind]
    exact ih (fun c2 hc2 => h c2 (List.mem_cons_of_mem c hc2)) _

theorem printFirstItem_not_par {pr : Ast → String → Option String} {c : Ast}
    (h : ∀ ps, c ≠ Ast.paragraph ps) (out : String) :
    printFirstItem pr c out = pr c out := by
  cases c with
  | paragraph ps => exact absurd rfl (h ps)
  | top cs => rfl
  | text s => rfl
  | heading lv cs => rfl
  | list cs => rfl
  | list_item cs => rfl
  | hard_break => rfl
  | unknown d => rfl
  | href u cs => rfl
  | image u => rfl
  | blockquote cs => rfl

theorem print_list_item_par (ps rest : List Ast) (out : String) :
    Ast.print (Ast.list_item (Ast.paragraph ps :: rest)) out
      = prints rest (prints ps (out ++ "<li>")) ++ "</li>" := by
  have hs : Ast.size (Ast.list_item (Ast.paragraph ps :: rest))
      = Ast.sizeList (Ast.paragraph ps :: rest) + 1 := by
    simp only [Ast.size]; omega
  have hK1 : ∀ p ∈ ps, Ast.size p ≤ Ast.sizeList (Ast.paragraph ps :: rest) := by
    intro p hp
    have := ast_sizeList_le_of_mem hp
    simp only [Ast.sizeList, Ast.size]
    omega
  have hK2 : ∀ c ∈ rest, Ast.size c ≤ Ast.sizeList (Ast.paragraph ps :: rest) := by
    intro c hcm
    have := ast_sizeList_le_of_mem hcm
    simp only [Ast.sizeList, Ast.size]
    omega
  simp only [Ast.print, hs, Ast.print_fuel, print_step, print_item_children,
    printFirstItem]
  rw [prints_go_eq hK1]
  simp only [osbind]
  rw [prints_go_eq hK2]
  simp only [osbind, Option.getD_some]

theorem print_list_item_other {c : Ast} (rest : List Ast) (out : String)
    (h : ∀ ps, c ≠ Ast.paragraph ps) :
    Ast.print (Ast.list_item (c :: rest)) out
      = prints rest (Ast.print c (out ++ "<li>")) ++ "</li>" := by
  have hs : Ast.size (Ast.list_item (c :: rest))
      = Ast.sizeList (c :: rest) + 1 := by
    simp only [Ast.size]; omega
  have hK0 : Ast.size c ≤ Ast.sizeList (c :: rest) := by
    simp only [Ast.sizeList]; omega
  have hK2 : ∀ c2 ∈ rest, Ast.size c2 ≤ Ast.sizeList (c :: rest) := by
    intro c2 hcm
    have := ast_sizeList_le_of_mem hcm
    simp only [Ast.sizeList]
    omega
  simp only [Ast.print, hs, Ast.print_fuel, print_step, print_item_children]
  rw [printFirstItem_not_par h]
  rw [print_fuel_eq hK0]
  simp only [osbind]
  rw [prints_go_eq hK2]
  simp only [osbind, Option.getD_some]
  rfl

theorem print_unknown (d : Json) (out : String) :
    Ast.print (Ast.unknown d) out
      = out ++ "<pre>\n" ++ Json.dumps d ++ "\n</pre>\n" := rfl

theorem runMarks_append (ms ms2 : List Json) (t : Ast) :
    runMarks (ms ++ ms2) t = ebind (runMarks ms t) (runMarks ms2) := by
  induction ms generalizing t with
  | nil => rfl
  | cons m ms ih =>
    simp only [List.cons_append, runMarks]
    cases markStep t m with
    | error er => rfl
    | ok t2 => simp only [ebind]; exact ih t2

theorem parse_doc_missing_type {kvs : List (String × Json)}
    (h : lookupLast kvs "type" = none) :
    parse_doc (Json.obj kvs) = Except.error (Err.missingField "type") := by
  have hs := parse_doc_eq_step (Json.obj kvs)
  simp only [parse_step, Json.index, h, obind] at hs
  exact (Option.some.inj hs).symm

theorem parse_doc_unknown_str {kvs : List (String × Json)} {s : String}
    (h : lookupLast kvs "type" = some (Json.str s))
    (h1 : s ≠ "doc") (h2 : s ≠ "text") (h3 : s ≠ "heading") (h4 : s ≠ "paragraph")
    (h5 : s ≠ "bullet_list") (h6 : s ≠ "hard_break") (h7 : s ≠ "list_item")
    (h8 : s ≠ "image") (h9 : s ≠ "blockquote") :
    parse_doc (Json.obj kvs) = Except.ok (Ast.unknown (Json.obj kvs)) := by
  have hs := parse_doc_eq_step (Json.obj kvs)
  simp only [parse_step, Json.index, h, obind, parse_step_ty] at hs
  rw [if_neg h1, if_neg h2, if_neg h3, if_neg h4, if_neg h5, if_neg h6, if_neg h7,
    if_neg h8, if_neg h9] at hs
  exact (Option.some.inj hs).symm

theorem parse_doc_text_marks {kvs : List (String × Json)} {s : String} {mv : Json}
    (h : lookupLast kvs "type" = some (Json.str "text"))
    (ht : lookupLast kvs "text" = some (Json.str s))
    (hm : lookupLast kvs "marks" = some mv) :
    parse_doc (Json.obj kvs) = parse_marks mv (Ast.text s) := by
  have hs := parse_doc_eq_step (Json.obj kvs)
  simp [parse_step, Json.index, h, obind, parse_step_ty, parse_text_val,
    Json.hasKey, ht, hm] at hs
  exact hs.symm

theorem parse_doc_text_no_text {kvs : List (String × Json)}
    (h : lookupLast kvs "type" = some (Json.str "text"))
    (ht : lookupLast kvs "text" = none) :
    parse_doc (Json.obj kvs) = Except.error (Err.missingField "text") := by
  have hs := parse_doc_eq_step (Json.obj kvs)
  simp [parse_step, Json.index, h, obind, parse_step_ty, ht] at hs
  exact hs.symm

theorem parse_doc_heading {kvs akvs : List (String × Json)} {lv : Json}
    (h : lookupLast kvs "type" = some (Json.str "heading"))
    (ha : lookupLast kvs "attrs" = some (Json.obj akvs))
    (hl : lookupLast akvs "level" = some lv) :
    parse_doc (Json.obj kvs) =
      Except.map (Ast.heading lv) (parse_content (Json.obj kvs)) := by
  have hs := parse_doc_eq_step (Json.obj kvs)
  simp [parse_step, Json.index, h, obind, parse_step_ty, ha, hl] at hs
  rw [liftA_some] at hs
  exact (Option.some.inj hs).symm

theorem parse_doc_heading_no_level {kvs akvs : List (String × Json)}
    (h : lookupLast kvs "type" = some (Json.str "heading"))
    (ha : lookupLast kvs "attrs" = some (Json.obj akvs))
    (hl : lookupLast akvs "level" = none) :
    parse_doc (Json.obj kvs) = Except.error (Err.missingField "level") := by
  have hs := parse_doc_eq_step (Json.obj kvs)
  simp [parse_step, Json.index, h, obind, parse_step_ty, ha, hl] at hs
  exact hs.symm

theorem parse_doc_bullet_list {kvs : List (String × Json)}
    (h : lookupLast kvs "type" = some (Json.str "bullet_list")) :
    parse_doc (Json.obj kvs) = Except.map Ast.list (parse_content (Json.obj kvs)) := by
  have hs := parse_doc_eq_step (Json.obj kvs)
  simp [parse_step, Json.index, h, obind, parse_step_ty] at hs
  rw [liftA_some] at hs
  exact (Option.some.inj hs).symm

theorem parse_doc_image_case {kvs : List (String × Json)}
    (h : lookupLast kvs "type" = some (Json.str "image")) :
    parse_doc (Json.obj kvs) = parse_image (Json.obj kvs) := by
  have hs := parse_doc_eq_step (Json.obj kvs)
  simp [parse_step, Json.index, h, obind, parse_step_ty] at hs
  exact hs.symm

theorem parse_content_no_content {kvs : List (String × Json)}
    (h : lookupLast kvs "content" = none) :
    parse_content (Json.obj kvs) = Except.ok [] := by
  simp only [parse_content, Json.dictGet, h, Option.getD_none, ebind, Json.elems,
    parseList]

/-- C1: for every ListItem node, rendering writes the item open marker
`<li>`, then renders each child in order except that a first child which is
a Paragraph has its children rendered directly with the Paragraph's own
open/close markers skipped (all other children, including non-first
Paragraphs and a non-Paragraph first child such as a Blockquote, render
through their own variant rule), then writes the close marker `</li>`; in
particular a ListItem whose only child is a Paragraph with children
`[TextRun "x"]` renders exactly `<li>x</li>`. -/
theorem C1_list_item_collapse :
    (∀ (ps rest : List Ast) (out : String),
      Ast.print (Ast.list_item (Ast.paragraph ps :: rest)) out
        = prints rest (prints ps (out ++ "<li>")) ++ "</li>")
    ∧ (∀ (c : Ast) (rest : List Ast) (out : String),
        (∀ ps, c ≠ Ast.paragraph ps) →
        Ast.print (Ast.list_item (c :: rest)) out
          = prints rest (Ast.print c (out ++ "<li>")) ++ "</li>")
    ∧ Ast.print (Ast.list_item [Ast.paragraph [Ast.text "x"]]) "" = "<li>x</li>"
    ∧ Ast.print (Ast.list_item [Ast.blockquote [Ast.text "x"]]) ""
        = "<li><blockquote>x</blockquote></li>"
    ∧ Ast.print (Ast.list_item
        [Ast.paragraph [Ast.text "a"], Ast.paragraph [Ast.text "b"]]) ""
        = "<li>a<p>\nb<p/>\n</li>" := by
  refine ⟨print_list_item_par, ?_, rfl, rfl, rfl⟩
  intro c rest out hc
  exact print_list_item_other rest out hc

theorem C1_list_item_collapse_witness :
    Ast.print (Ast.list_item [Ast.hard_break]) ""
      = prints [] (Ast.print Ast.hard_break ("" ++ "<li>")) ++ "</li>" :=
  C1_list_item_collapse.2.1 Ast.hard_break [] ""
    (fun _ hp => Ast.noConfusion hp)

/-- C2 counterexample: a `bullet_list` whose content holds a child object
of type `paragraph` parses to a List whose item is a Paragraph node, not a
ListItem, refuting the claim that every item of a parsed List is a
ListItem regardless of the child object's own type field. -/
theorem C2_bullet_list_counterexample :
    parse_doc (Json.obj [("type", Json.str "bullet_list"),
        ("content", Json.arr [Json.obj [("type", Json.str "paragraph")]])])
      = Except.ok (Ast.list [Ast.paragraph []])
    ∧ Ast.isListItem (Ast.paragraph []) = false :=
  ⟨rfl, rfl⟩

/-- C2 (amended): for every JSON object whose type field is
`"bullet_list"`, parseNode returns a List whose items are the parseChildren
of that object's content, each child object parsed according to its own
type field (so a child of type `list_item` becomes a ListItem with that
child's parseChildren, while children of other types become the
corresponding other node kinds). -/
theorem C2_bullet_list_items {kvs : List (String × Json)}
    (h : lookupLast kvs "type" = some (Json.str "bullet_list")) :
    parse_doc (Json.obj kvs)
      = Except.map Ast.list (parse_content (Json.obj kvs)) :=
  parse_doc_bullet_list h

theorem C2_bullet_list_items_witness :
    parse_doc (Json.obj [("type", Json.str "bullet_list")])
      = Except.map Ast.list
          (parse_content (Json.obj [("type", Json.str "bullet_list")])) :=
  C2_bullet_list_items rfl

/-- C3 counterexample: a node object of type `text` carrying its `type`
key but no `text` key fails with a missing-field error, a failure outside
the cases the claim's "exactly when" enumerates. -/
theorem C3_missing_field_counterexample :
    parse_doc (Json.obj [("type", Json.str "text")])
      = Except.error (Err.missingField "text")
    ∧ lookupLast [("type", Json.str "text")] "type" = some (Json.str "text") :=
  ⟨rfl, rfl⟩

/-- C3 (amended): parsing fails with a MissingField error when the type
key is absent from a node object, when a heading node's attrs lacks level,
or when the top-level object lacks version, schema_version or doc — and
also in further missing-key cases such as a text node lacking its text
key; parsing does not fail on an unrecognized type value (which yields an
Unknown node) or on a missing content key (which yields zero children). -/
theorem C3_missing_field_errors :
    (∀ kvs : List (String × Json), lookupLast kvs "type" = none →
      parse_doc (Json.obj kvs) = Except.error (Err.missingField "type"))
    ∧ (∀ (kvs akvs : List (String × Json)),
        lookupLast kvs "type" = some (Json.str "heading") →
        lookupLast kvs "attrs" = some (Json.obj akvs) →
        lookupLast akvs "level" = none →
        parse_doc (Json.obj kvs) = Except.error (Err.missingField "level"))
    ∧ (∀ kvs : List (String × Json), lookupLast kvs "version" = none →
        parse_top (Json.obj kvs) = Except.error (Err.missingField "version"))
    ∧ (∀ (kvs : List (String × Json)) (v : Json),
        lookupLast kvs "version" = some v →
        lookupLast kvs "schema_version" = none →
        parse_top (Json.obj kvs)
          = Except.error (Err.missingField "schema_version"))
    ∧ (∀ (kvs : List (String × Json)) (v w : Json),
        lookupLast kvs "version" = some v →
        lookupLast kvs "schema_version" = some w →
        lookupLast kvs "doc" = none →
        parse_top (Json.obj kvs) = Except.error (Err.missingField "doc"))
    ∧ (∀ (kvs : List (String × Json)) (s : String),
        lookupLast kvs "type" = some (Json.str s) →
        s ≠ "doc" → s ≠ "text" → s ≠ "heading" → s ≠ "paragraph" →
        s ≠ "bullet_list" → s ≠ "hard_break" → s ≠ "list_item" →
        s ≠ "image" → s ≠ "blockquote" →
        parse_doc (Json.obj kvs) = Except.ok (Ast.unknown (Json.obj kvs)))
    ∧ (∀ kvs : List (String × Json), lookupLast kvs "content" = none →
        parse_content (Json.obj kvs) = Except.ok []) := by
  refine ⟨fun kvs h => parse_doc_missing_type h,
    fun kvs akvs h ha hl => parse_doc_heading_no_level h ha hl,
    ?_, ?_, ?_,
    fun kvs s h h1 h2 h3 h4 h5 h6 h7 h8 h9 =>
      parse_doc_unknown_str h h1 h2 h3 h4 h5 h6 h7 h8 h9,
    fun kvs h => parse_content_no_content h⟩
  · intro kvs h
    simp [parse_top, Json.index, h, ebind]
  · intro kvs v hv h
    simp [parse_top, Json.index, hv, h, ebind]
  · intro kvs v w hv hw h
    simp [parse_top, Json.index, hv, hw, h, ebind]

theorem C3_missing_field_errors_witness :
    parse_doc (Json.obj []) = Except.error (Err.missingField "type")
    ∧ parse_doc (Json.obj [("type", Json.str "heading"), ("attrs", Json.obj [])])
        = Except.error (Err.missingField "level")
    ∧ parse_top (Json.obj []) = Except.error (Err.missingField "version")
    ∧ parse_top (Json.obj [("version", Json.num 1)])
        = Except.error (Err.missingField "schema_version")
    ∧ parse_top (Json.obj [("version", Json.num 1), ("schema_version", Json.num 1)])
        = Except.error (Err.missingField "doc")
    ∧ parse_doc (Json.obj [("type", Json.str "zz")])
        = Except.ok (Ast.unknown (Json.obj [("type", Json.str "zz")]))
    ∧ parse_content (Json.obj [("type", Json.str "paragraph")]) = Except.ok [] :=
  ⟨C3_missing_field_errors.1 [] rfl,
   C3_missing_field_errors.2.1 _ [] rfl rfl rfl,
   C3_missing_field_errors.2.2.1 [] rfl,
   C3_missing_field_errors.2.2.2.1 _ _ rfl rfl,
   C3_missing_field_errors.2.2.2.2.1 _ _ _ rfl rfl rfl,
   C3_missing_field_errors.2.2.2.2.2.1 _ "zz" rfl (by decide) (by decide)
     (by decide) (by decide) (by decide) (by decide) (by decide) (by decide)
     (by decide),
   C3_missing_field_errors.2.2.2.2.2.2 _ rfl⟩

/-- C4: a Paragraph node with children `[TextRun "hello"]` renders exactly
the string `"<p>\nhello<p/>\n"`, with the non-standard close marker `<p/>`
(same tag name, slash after the name) reproduced exactly. -/
theorem C4_paragraph_render :
    Ast.print (Ast.paragraph [Ast.text "hello"]) "" = "<p>\nhello<p/>\n" := rfl

/-- C5: for every text node object carrying a marks array, parseNode folds
the marks in the given order over the TextRun: each mark of type `"link"`
wraps the accumulated node as a Link whose url is `mark.attrs.href`, marks
of any other type leave the accumulated node unchanged without error, and
when multiple link marks exist the last processed mark becomes the
outermost Link wrapper. -/
theorem C5_mark_folding :
    (∀ (kvs : List (String × Json)) (s : String) (mv : Json),
      lookupLast kvs "type" = some (Json.str "text") →
      lookupLast kvs "text" = some (Json.str s) →
      lookupLast kvs "marks" = some mv →
      parse_doc (Json.obj kvs) = parse_marks mv (Ast.text s))
    ∧ (∀ (ms ms2 : List Json) (t : Ast),
        parse_marks (Json.arr (ms ++ ms2)) t
          = ebind (parse_marks (Json.arr ms) t)
              (fun t2 => parse_marks (Json.arr ms2) t2))
    ∧ (∀ (t : Ast) (akvs : List (String × Json)) (u : Json),
        lookupLast akvs "href" = some u →
        parse_marks (Json.arr [Json.obj [("type", Json.str "link"),
          ("attrs", Json.obj akvs)]]) t = Except.ok (Ast.href u [t]))
    ∧ (∀ (t : Ast) (s : String), s ≠ "link" →
        parse_marks (Json.arr [Json.obj [("type", Json.str s)]]) t
          = Except.ok t)
    ∧ (∀ (t : Ast) (u1 u2 : Json),
        parse_marks (Json.arr
          [Json.obj [("type", Json.str "link"),
             ("attrs", Json.obj [("href", u1)])],
           Json.obj [("type", Json.str "link"),
             ("attrs", Json.obj [("href", u2)])]]) t
          = Except.ok (Ast.href u2 [Ast.href u1 [t]])) := by
  refine ⟨fun kvs s mv h ht hm => parse_doc_text_marks h ht hm, ?_, ?_, ?_, ?_⟩
  · intro ms ms2 t
    show runMarks (ms ++ ms2) t = ebind (runMarks ms t) (fun t2 => runMarks ms2 t2)
    exact runMarks_append ms ms2 t
  · intro t akvs u hu
    simp [parse_marks, Json.elems, ebind, runMarks, markStep, markStep_ty,
      Json.index, lookupLast, hu]
  · intro t s hs
    simp [parse_marks, Json.elems, ebind, runMarks, markStep, markStep_ty,
      Json.index, lookupLast, hs]
  · intro t u1 u2
    rfl

theorem C5_mark_folding_witness :
    parse_doc (Json.obj [("type", Json.str "text"), ("text", Json.str "t"),
        ("marks", Json.arr [])])
      = parse_marks (Json.arr []) (Ast.text "t")
    ∧ parse_marks (Json.arr ([] ++ [])) Ast.hard_break
        = ebind (parse_marks (Json.arr []) Ast.hard_break)
            (fun t2 => parse_marks (Json.arr []) t2)
    ∧ parse_marks (Json.arr [Json.obj [("type", Json.str "link"),
        ("attrs", Json.obj [("href", Json.str "http://e.com")])]]) Ast.hard_break
        = Except.ok (Ast.href (Json.str "http://e.com") [Ast.hard_break])
    ∧ parse_marks (Json.arr [Json.obj [("type", Json.str "bold")]]) Ast.hard_break
        = Except.ok Ast.hard_break
    ∧ parse_marks (Json.arr
        [Json.obj [("type", Json.str "link"),
           ("attrs", Json.obj [("href", Json.str "u1")])],
         Json.obj [("type", Json.str "link"),
           ("attrs", Json.obj [("href", Json.str "u2")])]]) Ast.hard_break
        = Except.ok (Ast.href (Json.str "u2")
            [Ast.href (Json.str "u1") [Ast.hard_break]]) :=
  ⟨C5_mark_folding.1 _ "t" _ rfl rfl rfl,
   C5_mark_folding.2.1 [] [] Ast.hard_break,
   C5_mark_folding.2.2.1 Ast.hard_break [("href", Json.str "http://e.com")]
     (Json.str "http://e.com") rfl,
   C5_mark_folding.2.2.2.1 Ast.hard_break "bold" (by decide),
   C5_mark_folding.2.2.2.2 Ast.hard_break (Json.str "u1") (Json.str "u2")⟩

/-- C6 counterexample: parsing a document whose heading carries
`attrs.level = 7` produces a Heading node whose level field is the integer
7, which does not lie between 1 and 6, refuting the claimed invariant. -/
theorem C6_heading_level_counterexample :
    parse_top (Json.obj [("version", Json.num 1), ("schema_version", Json.num 1),
        ("doc", Json.obj [("type", Json.str "doc"),
          ("content", Json.arr [Json.obj [("type", Json.str "heading"),
            ("attrs", Json.obj [("level", Json.num 7)])]])])])
      = Except.ok (Ast.top [Ast.heading (Json.num 7) []])
    ∧ ¬((1 : Int) ≤ 7 ∧ (7 : Int) ≤ 6) :=
  ⟨rfl, by decide⟩

/-- C6 (amended): the parser copies the input's `attrs.level` value into
the Heading node verbatim, performing no validation or clamping, so a
parsed Heading's level lies between 1 and 6 exactly when the input's
`attrs.level` value does. -/
theorem C6_heading_level_unvalidated {kvs akvs : List (String × Json)}
    {lv : Json}
    (h : lookupLast kvs "type" = some (Json.str "heading"))
    (ha : lookupLast kvs "attrs" = some (Json.obj akvs))
    (hl : lookupLast akvs "level" = some lv) :
    parse_doc (Json.obj kvs)
      = Except.map (Ast.heading lv) (parse_content (Json.obj kvs)) :=
  parse_doc_heading h ha hl

theorem C6_heading_level_unvalidated_witness :
    parse_doc (Json.obj [("type", Json.str "heading"),
        ("attrs", Json.obj [("level", Json.num 7)])])
      = Except.map (Ast.heading (Json.num 7))
          (parse_content (Json.obj [("type", Json.str "heading"),
            ("attrs", Json.obj [("level", Json.num 7)])])) :=
  C6_heading_level_unvalidated rfl rfl rfl

/-- C7: an Unknown node is never dropped by rendering: its output appends
the `<pre>` block marker and the serialized dump of the original raw node
payload appears verbatim inside that block. -/
theorem C7_unknown_preserved (d : Json) (out : String) :
    Ast.print (Ast.unknown d) out
      = out ++ "<pre>\n" ++ Json.dumps d ++ "\n</pre>\n"
    ∧ (∃ a b : String, Ast.print (Ast.unknown d) out = a ++ "<pre>" ++ b)
    ∧ (∃ a b : String, Ast.print (Ast.unknown d) out = a ++ Json.dumps d ++ b) := by
  refine ⟨print_unknown d out,
    ⟨out, "\n" ++ (Json.dumps d ++ "\n</pre>\n"), ?_⟩,
    ⟨out ++ "<pre>\n", "\n</pre>\n", print_unknown d out⟩⟩
  rw [print_unknown]
  simp only [string_append_assoc]
  rw [show ("<pre>\n" : String) = "<pre>" ++ "\n" from rfl]
  simp only [string_append_assoc]

/-- C8: rendering is deterministic — rendering the same Node tree twice,
to two fresh output sinks, yields byte-identical output. -/
theorem C8_render_deterministic (t : Ast) (out1 out2 : String)
    (h1 : out1 = "") (h2 : out2 = "") :
    Ast.print t out1 = Ast.print t out2 := by
  subst h1; subst h2; rfl

theorem C8_render_deterministic_witness :
    Ast.print Ast.hard_break "" = Ast.print Ast.hard_break "" :=
  C8_render_deterministic Ast.hard_break "" "" rfl rfl

/-- C9: both parse and render terminate on every finite input — fuel equal
to the structural size of the input already makes the fuelled recursion
reach the total function's result, so each is a bounded traversal of its
finite tree. -/
theorem C9_parse_render_terminate :
    (∀ (j : Json) (n : Nat), Json.size j ≤ n →
      parse_doc_fuel n j = some (parse_doc j))
    ∧ (∀ (t : Ast) (out : String) (n : Nat), Ast.size t ≤ n →
        Ast.print_fuel n t out = some (Ast.print t out)) :=
  ⟨fun _j _n h => parse_doc_fuel_eq h, fun _t out _n h => print_fuel_eq h out⟩

theorem C9_parse_render_terminate_witness :
    parse_doc_fuel 1 Json.null = some (parse_doc Json.null)
    ∧ Ast.print_fuel 1 Ast.hard_break "" = some (Ast.print Ast.hard_break "") :=
  ⟨C9_parse_render_terminate.1 Json.null 1 (by decide),
   C9_parse_render_terminate.2 Ast.hard_break "" 1 (by decide)⟩

/-- C10: a JSON object whose type field is `"image"` but which has no
attrs key at all fails with a missing-key error rather than producing an
Unknown node; when attrs is present but lacks boxSharedLink, parsing
degrades to Unknown, and when it carries a non-null boxSharedLink the node
becomes an Image of that value. -/
theorem C10_image_missing_attrs {kvs : List (String × Json)}
    (htype : lookupLast kvs "type" = some (Json.str "image")) :
    (lookupLast kvs "attrs" = none →
      parse_doc (Json.obj kvs) = Except.error (Err.missingField "attrs"))
    ∧ (∀ akvs : List (String × Json),
        lookupLast kvs "attrs" = some (Json.obj akvs) →
        lookupLast akvs "boxSharedLink" = none →
        parse_doc (Json.obj kvs) = Except.ok (Ast.unknown (Json.obj kvs)))
    ∧ (∀ (akvs : List (String × Json)) (u : Json),
        lookupLast kvs "attrs" = some (Json.obj akvs) →
        lookupLast akvs "boxSharedLink" = some u → u ≠ Json.null →
        parse_doc (Json.obj kvs) = Except.ok (Ast.image u)) := by
  rw [parse_doc_image_case htype]
  refine ⟨?_, ?_, ?_⟩
  · intro h
    simp [parse_image, Json.index, h, ebind]
  · intro akvs ha hb
    simp [parse_image, Json.index, ha, ebind, Json.dictGetOpt, hb,
      parse_image_opt]
  · intro akvs u ha hb hu
    simp [parse_image, Json.index, ha, ebind, Json.dictGetOpt, hb]
    cases u with
    | null => exact absurd rfl hu
    | bool b => rfl
    | num i => rfl
    | str s => rfl
    | arr xs => rfl
    | obj kvs2 => rfl

theorem C10_image_missing_attrs_witness :
    parse_doc (Json.obj [("type", Json.str "image")])
      = Except.error (Err.missingField "attrs")
    ∧ parse_doc (Json.obj [("type", Json.str "image"), ("attrs", Json.obj [])])
        = Except.ok (Ast.unknown (Json.obj [("type", Json.str "image"),
            ("attrs", Json.obj [])]))
    ∧ parse_doc (Json.obj [("type", Json.str "image"),
        ("attrs", Json.obj [("boxSharedLink", Json.str "u")])])
        = Except.ok (Ast.image (Json.str "u")) :=
  ⟨(@C10_image_missing_attrs [("type", Json.str "image")] rfl).1 rfl,
   (@C10_image_missing_attrs [("type", Json.str "image"),
      ("attrs", Json.obj [])] rfl).2.1 [] rfl rfl,
   (@C10_image_missing_attrs [("type", Json.str "image"),
      ("attrs", Json.obj [("boxSharedLink", Json.str "u")])] rfl).2.2
     [("boxSharedLink", Json.str "u")]
     (Json.str "u") rfl rfl (fun h => Json.noConfusion h)⟩
